import Mathlib

/-!
# Verification of the itsdangerous-style signing/verification core

The repository under test contains only test suites for the `itsdangerous`
signing library; the library's own code is not part of the repository. The
definitions below therefore model the signing/verification contract from the
repository's specification (sections 3, 4, 6 and 7), with behavioural details
pinned by the repository's test suites where the spec leaves a choice.

Bytes are modelled as `Nat` (meaningful values are `< 256`), byte strings as
`List Nat`, and Python exceptions as an explicit error type carried in
`Except`.
-/

namespace ItsDangerous

/-- Modelled from the spec: the base64url alphabet used for signature and
timestamp encoding — letters, digits, `-`, `_`, and the padding char `=`
(spec section 4.3: the separator must avoid all of these). -/
def base64_alphabet : List Nat :=
  ((List.range 26).map (fun i => 65 + i)) ++
    ((List.range 26).map (fun i => 97 + i)) ++
    ((List.range 10).map (fun i => 48 + i)) ++ [45, 95, 61]

/-- Character of the base64url alphabet for a 6-bit group. -/
def b64Char (n : Nat) : Nat :=
  if n < 26 then 65 + n
  else if n < 52 then 97 + (n - 26)
  else if n < 62 then 48 + (n - 52)
  else if n = 62 then 45
  else 95

/-- Inverse of `b64Char`: 6-bit value of a base64url character, `none` for a
character outside the (unpadded) alphabet. -/
def b64Val (c : Nat) : Option Nat :=
  if 65 ≤ c ∧ c ≤ 90 then some (c - 65)
  else if 97 ≤ c ∧ c ≤ 122 then some (c - 97 + 26)
  else if 48 ≤ c ∧ c ≤ 57 then some (c - 48 + 52)
  else if c = 45 then some 62
  else if c = 95 then some 63
  else none

/-- Modelled from the spec: URL-safe, unpadded base64 encoding of a byte
string (spec section 3, "Signature"). -/
def base64url_encode : List Nat → List Nat
  | [] => []
  | [a] => [b64Char (a / 4), b64Char (a % 4 * 16)]
  | [a, b] =>
      [b64Char (a / 4), b64Char (a % 4 * 16 + b / 16), b64Char (b % 16 * 4)]
  | a :: b :: c :: rest =>
      b64Char (a / 4) :: b64Char (a % 4 * 16 + b / 16) ::
        b64Char (b % 16 * 4 + c / 64) :: b64Char (c % 64) ::
          base64url_encode rest

/-- Modelled from the spec: decoding of URL-safe unpadded base64; fails on a
character outside the alphabet or on an impossible length (remainder 1). -/
def base64url_decode : List Nat → Option (List Nat)
  | [] => some []
  | [_] => none
  | [z1, z2] => do
      let v1 ← b64Val z1
      let v2 ← b64Val z2
      some [v1 * 4 + v2 / 16]
  | [z1, z2, z3] => do
      let v1 ← b64Val z1
      let v2 ← b64Val z2
      let v3 ← b64Val z3
      some [v1 * 4 + v2 / 16, v2 % 16 * 16 + v3 / 4]
  | z1 :: z2 :: z3 :: z4 :: rest => do
      let v1 ← b64Val z1
      let v2 ← b64Val z2
      let v3 ← b64Val z3
      let v4 ← b64Val z4
      let tail ← base64url_decode rest
      some ((v1 * 4 + v2 / 16) :: (v2 % 16 * 16 + v3 / 4) :: (v3 % 4 * 64 + v4) :: tail)

/-- Modelled from the spec: constant-time comparison of two byte strings —
a length mismatch short-circuits to `false`, otherwise the XOR of each byte
pair is OR-accumulated and compared to zero at the end (spec section 4.1 and
glossary). -/
def constant_time_compare (val1 val2 : List Nat) : Bool :=
  if val1.length ≠ val2.length then false
  else
    decide ((List.zipWith (fun x y => x ^^^ y) val1 val2).foldl
      (fun acc b => acc ||| b) 0 = 0)

/-- Modelled from the spec: big-endian minimal-length encoding of a
non-negative integer, no leading zero bytes (spec section 4.4). -/
def int_to_bytes (num : Nat) : List Nat :=
  if h : num = 0 then []
  else int_to_bytes (num / 256) ++ [num % 256]
decreasing_by exact Nat.div_lt_self (Nat.pos_of_ne_zero h) (by omega)

/-- Modelled from the spec: big-endian interpretation of a byte string as an
unsigned integer (spec section 4.4). -/
def bytes_to_int (bs : List Nat) : Nat :=
  bs.foldl (fun acc b => acc * 256 + b) 0
/-! ## Splitting tokens at the last separator -/

/-- Split a byte string at the first occurrence of `sep`; `none` when absent. -/
def splitFirst (sep : Nat) : List Nat → Option (List Nat × List Nat)
  | [] => none
  | x :: xs =>
      if x = sep then some ([], xs)
      else (splitFirst sep xs).map (fun p => (x :: p.1, p.2))

/-- Modelled from the spec: splitting a token at the *last* occurrence of the
separator, Python's `rsplit(sep, 1)` (spec sections 4.3 and 9: "split on last
separator" semantics must be preserved exactly). -/
def rsplitLast (sep : Nat) (l : List Nat) : Option (List Nat × List Nat) :=
  match splitFirst sep l.reverse with
  | none => none
  | some p => some (p.2.reverse, p.1.reverse)

/-! ## Errors of the signing pipeline

Python exception classes are modelled as a discriminated union (spec section
9 recommends exactly this reimplementation). `badTimeSignature` and
`signatureExpired` correspond to subclasses of `BadSignature` in the original
library, so `validate` collapses all three to `false`; `valueError` and
`typeError` model the configuration errors of spec section 7. -/

inductive SignerError where
  | valueError (msg : String)
  | typeError (msg : String)
  | badSignature (msg : String) (payload : Option (List Nat))
  | badTimeSignature (msg : String) (payload : Option (List Nat))
  | signatureExpired (msg : String) (payload : Option (List Nat))
      (dateSigned : Nat) (age : Int) (maxAge : Nat)
deriving DecidableEq

def sepErrorMessage : String :=
  "The given separator cannot be used because it is a character in the base64 alphabet."

def unknownDerivationMessage : String := "Unknown key derivation method"

def noSepMessage : String := "No separator found in value"

def sigMismatchMessage : String := "Signature does not match"

def timestampMissingMessage : String := "timestamp missing"

def malformedTimestampMessage : String := "Malformed timestamp"

def expiredMessage : String := "Signature age greater than maximum age"

/-! ## Signature algorithms -/

/-- Modelled from the spec: a Signature Algorithm maps (key, message) to
signature bytes (spec section 4.1); the digest underlying the HMAC variant is
an external stdlib primitive, so the mapping itself is carried as a field. -/
structure SigningAlgorithm where
  get_signature : List Nat → List Nat → List Nat

/-- Modelled from the spec: verification recomputes the signature and uses the
constant-time comparison (spec section 4.1). -/
def SigningAlgorithm.verify_signature (algo : SigningAlgorithm)
    (key value sig : List Nat) : Bool :=
  constant_time_compare sig (algo.get_signature key value)

/-- Modelled from the spec: the "None" variant — signature is always empty,
verification succeeds iff the supplied signature is also empty (spec
section 4.1). -/
def NoneAlgorithm : SigningAlgorithm := ⟨fun _ _ => []⟩

/-- Modelled from the spec: the "HMAC" variant under a configurable digest;
HMAC itself is an external stdlib primitive, carried as the function `mac`
(spec section 4.1: deterministic in (key, value)). -/
def HMACAlgorithm (mac : List Nat → List Nat → List Nat) : SigningAlgorithm :=
  ⟨mac⟩

/-! ## The Signer -/

/-- Modelled from the spec: a Signer's immutable configuration — secret key,
namespacing salt, separator byte, key-derivation method name, digest, an HMAC
primitive used by the `"hmac"` derivation method, and the Signature Algorithm
(spec section 4.3). Defaults in the library are salt `b"itsdangerous.Signer"`,
separator `.`, derivation `"django-concat"`. -/
structure Signer where
  secret_key : List Nat
  salt : List Nat
  sep : Nat
  key_derivation : String
  digest_method : List Nat → List Nat
  mac : List Nat → List Nat → List Nat
  algorithm : SigningAlgorithm

/-- Modelled from the spec: constructing a Signer validates that the separator
is not a character of the base64 alphabet, failing with a `ValueError`
configuration error otherwise (spec section 4.3 invariant, pinned by
`test_separator_cannot_be_in_base64_alphabet`). The key-derivation method name
is *not* validated here: `test_derive_key_unknown_method_raises` constructs a
Signer with an unknown method and only `derive_key` raises. -/
def Signer.make (secret_key salt : List Nat) (sep : Nat)
    (key_derivation : String) (digest_method : List Nat → List Nat)
    (mac : List Nat → List Nat → List Nat) (algorithm : SigningAlgorithm) :
    Except SignerError Signer :=
  if sep ∈ base64_alphabet then .error (.valueError sepErrorMessage)
  else .ok ⟨secret_key, salt, sep, key_derivation, digest_method, mac, algorithm⟩

/-- Modelled from the spec: key derivation, a pure function of (secret key,
salt) chosen by the method name; the `b"signer"` literal namespaces the
django-concat variant; an unknown name is a `TypeError` configuration error
(spec section 4.2, pinned by `test_derive_key_unknown_method_raises`). -/
def Signer.derive_key (s : Signer) : Except SignerError (List Nat) :=
  if s.key_derivation = "concat" then
    .ok (s.digest_method (s.salt ++ s.secret_key))
  else if s.key_derivation = "django-concat" then
    .ok (s.digest_method (s.salt ++ [115, 105, 103, 110, 101, 114] ++ s.secret_key))
  else if s.key_derivation = "hmac" then
    .ok (s.mac s.secret_key s.salt)
  else if s.key_derivation = "none" then
    .ok s.secret_key
  else .error (.typeError unknownDerivationMessage)

/-- Modelled from the spec: the base64url-encoded signature of a value under
the derived key (spec section 4.3). -/
def Signer.get_signature (s : Signer) (value : List Nat) :
    Except SignerError (List Nat) := do
  let key ← s.derive_key
  pure (base64url_encode (s.algorithm.get_signature key value))

/-- Modelled from the spec: `sign(value) = value + SEP + signature` (spec
section 4.3). -/
def Signer.sign (s : Signer) (value : List Nat) : Except SignerError (List Nat) := do
  let sig ← s.get_signature value
  pure (value ++ s.sep :: sig)

/-- Modelled from the spec: verification of a supplied base64 signature; a
signature that fails to decode yields `false` rather than an error (spec
section 4.3, pinned by `test_verify_signature_handles_decode_error`). -/
def Signer.verify_signature (s : Signer) (value sig : List Nat) :
    Except SignerError Bool := do
  let key ← s.derive_key
  match base64url_decode sig with
  | none => pure false
  | some raw => pure (s.algorithm.verify_signature key value raw)

/-- Modelled from the spec: `unsign` splits at the last separator, fails with
"separator not found" when absent, recomputes and compares the signature, and
on mismatch carries the unverified extracted value as the error payload (spec
section 4.3). -/
def Signer.unsign (s : Signer) (signed_value : List Nat) :
    Except SignerError (List Nat) :=
  match rsplitLast s.sep signed_value with
  | none => .error (.badSignature noSepMessage none)
  | some (value, sig) =>
      match s.verify_signature value sig with
      | .ok true => .ok value
      | .ok false => .error (.badSignature sigMismatchMessage (some value))
      | .error e => .error e

/-- Modelled from the spec: `validate` collapses every `BadSignature`-family
failure of `unsign` to `false` (spec sections 4.3 and 7); configuration errors
are not part of that family and propagate, as in the original library where
`validate` catches only `BadSignature`. -/
def Signer.validate (s : Signer) (signed_value : List Nat) :
    Except SignerError Bool :=
  match s.unsign signed_value with
  | .ok _ => .ok true
  | .error (.badSignature _ _) => .ok false
  | .error (.badTimeSignature _ _) => .ok false
  | .error (.signatureExpired _ _ _ _ _) => .ok false
  | .error e => .error e

/-! ## The Timestamped Signer

The current unix time is an effect of the environment; it is passed explicitly
as `now` (the tests freeze it the same way). -/

namespace TimestampSigner

/-- Modelled from the spec: the timestamped `sign` delegates to the plain
signer on the composite `value + SEP + encode_int(ts)`, producing
`value + SEP + encoded_ts + SEP + signature` (spec section 4.4). -/
def sign (s : Signer) (now : Nat) (value : List Nat) :
    Except SignerError (List Nat) :=
  Signer.sign s (value ++ s.sep :: base64url_encode (int_to_bytes now))

/-- Modelled from the spec: the timestamped `unsign` first validates the
signature over the full payload, then splits off the timestamp segment —
missing segment is the "timestamp missing" failure, an undecodable segment a
malformed-timestamp failure — and finally enforces `max_age` with a strict
greater-than comparison, the expiry error carrying the unverified value, the
signed timestamp, the age and the maximum age (spec section 4.4). -/
def unsign (s : Signer) (now : Nat) (token : List Nat) (max_age : Option Nat) :
    Except SignerError (List Nat × Nat) := do
  let result ← Signer.unsign s token
  match rsplitLast s.sep result with
  | none => .error (.badTimeSignature timestampMissingMessage (some result))
  | some (value, ts_bytes) =>
      match base64url_decode ts_bytes with
      | none => .error (.badTimeSignature malformedTimestampMessage (some value))
      | some raw =>
          let ts := bytes_to_int raw
          match max_age with
          | none => pure (value, ts)
          | some m =>
              let age : Int := (now : Int) - (ts : Int)
              if age > (m : Int) then
                .error (.signatureExpired expiredMessage (some value) ts age m)
              else pure (value, ts)

/-- Modelled from the spec: the timestamped `validate`, collapsing signature
and expiry failures alike to `false` (spec section 4.4). -/
def validate (s : Signer) (now : Nat) (token : List Nat) (max_age : Option Nat) :
    Except SignerError Bool :=
  match unsign s now token max_age with
  | .ok _ => .ok true
  | .error (.badSignature _ _) => .ok false
  | .error (.badTimeSignature _ _) => .ok false
  | .error (.signatureExpired _ _ _ _ _) => .ok false
  | .error e => .error e

end TimestampSigner

def exOk {ε α : Type _} : Except ε α → Bool
  | .ok _ => true
  | .error _ => false

/-- The `BadSignature` exception family of the original library: the errors
that `validate` collapses to `false`. -/
def SignerError.isBadSignatureFamily : SignerError → Bool
  | .badSignature _ _ => true
  | .badTimeSignature _ _ => true
  | .signatureExpired _ _ _ _ _ => true
  | _ => false

/-! ## Concrete configurations used by the witnesses -/

/-- A concrete keyed MAC standing in for HMAC in the witnesses; its output
bytes are always `< 256`. -/
def wMac : List Nat → List Nat → List Nat :=
  fun key msg => (key ++ msg).map (fun b => b % 256)

/-- A concrete signer: secret key `b"key"`, salt `b"salt"`, separator `.`
(byte 46), key derivation `"none"`, HMAC-style algorithm. -/
def wSigner : Signer :=
  { secret_key := [107, 101, 121], salt := [115, 97, 108, 116], sep := 46,
    key_derivation := "none", digest_method := fun l => wMac l [],
    mac := wMac, algorithm := HMACAlgorithm wMac }

/-- The concrete signer with the "None" algorithm (empty signatures). -/
def wSignerNone : Signer := { wSigner with algorithm := NoneAlgorithm }

/-- The concrete signer with an unknown key-derivation method name. -/
def wSignerUnknown : Signer := { wSigner with key_derivation := "invalid" }

/-! ## Lemmas about the byte-level primitives -/

theorem mem_base64_alphabet (c : Nat) :
    c ∈ base64_alphabet ↔
      (65 ≤ c ∧ c ≤ 90) ∨ (97 ≤ c ∧ c ≤ 122) ∨ (48 ≤ c ∧ c ≤ 57) ∨
        c = 45 ∨ c = 95 ∨ c = 61 := by
  simp only [base64_alphabet, List.mem_append, List.mem_map, List.mem_range,
    List.mem_cons, List.not_mem_nil, or_false]
  constructor
  · rintro (((⟨i, hi, rfl⟩ | ⟨i, hi, rfl⟩) | ⟨i, hi, rfl⟩) | h) <;> omega
  · rintro (h | h | h | h | h | h)
    · exact Or.inl (Or.inl (Or.inl ⟨c - 65, by omega, by omega⟩))
    · exact Or.inl (Or.inl (Or.inr ⟨c - 97, by omega, by omega⟩))
    · exact Or.inl (Or.inr ⟨c - 48, by omega, by omega⟩)
    · exact Or.inr (Or.inl h)
    · exact Or.inr (Or.inr (Or.inl h))
    · exact Or.inr (Or.inr (Or.inr h))

theorem b64Char_mem_alphabet (n : Nat) : b64Char n ∈ base64_alphabet := by
  rw [mem_base64_alphabet]
  unfold b64Char
  split
  · omega
  · split
    · omega
    · split
      · omega
      · split <;> omega

theorem b64Val_b64Char (n : Nat) (h : n < 64) : b64Val (b64Char n) = some n := by
  unfold b64Char b64Val
  split
  · rw [if_pos (by omega)]
    congr 1
    omega
  · split
    · rw [if_neg (by omega), if_pos (by omega)]
      congr 1
      omega
    · split
      · rw [if_neg (by omega), if_neg (by omega), if_pos (by omega)]
        congr 1
        omega
      · split
        · rw [if_neg (by omega), if_neg (by omega), if_neg (by omega),
            if_pos (by omega)]
          congr 1
          omega
        · rw [if_neg (by omega), if_neg (by omega), if_neg (by omega),
            if_neg (by omega), if_pos (by omega)]
          congr 1
          omega

theorem base64url_encode_mem_alphabet {l : List Nat} {c : Nat}
    (hc : c ∈ base64url_encode l) : c ∈ base64_alphabet := by
  induction l using base64url_encode.induct with
  | case1 => simp [base64url_encode] at hc
  | case2 a =>
      simp only [base64url_encode, List.mem_cons, List.not_mem_nil, or_false] at hc
      rcases hc with rfl | rfl <;> exact b64Char_mem_alphabet _
  | case3 a b =>
      simp only [base64url_encode, List.mem_cons, List.not_mem_nil, or_false] at hc
      rcases hc with rfl | rfl | rfl <;> exact b64Char_mem_alphabet _
  | case4 a b cc rest ih =>
      simp only [base64url_encode, List.mem_cons] at hc
      rcases hc with rfl | rfl | rfl | rfl | hmem
      · exact b64Char_mem_alphabet _
      · exact b64Char_mem_alphabet _
      · exact b64Char_mem_alphabet _
      · exact b64Char_mem_alphabet _
      · exact ih hmem

theorem base64url_decode_encode {l : List Nat} (h : ∀ b ∈ l, b < 256) :
    base64url_decode (base64url_encode l) = some l := by
  induction l using base64url_encode.induct with
  | case1 => rfl
  | case2 a =>
      have ha : a < 256 := h a (by simp)
      rw [base64url_encode, base64url_decode,
        b64Val_b64Char (a / 4) (by omega), b64Val_b64Char (a % 4 * 16) (by omega)]
      simp only [Option.bind_eq_bind, Option.some_bind]
      congr 2
      omega
  | case3 a b =>
      have ha : a < 256 := h a (by simp)
      have hb : b < 256 := h b (by simp)
      rw [base64url_encode, base64url_decode,
        b64Val_b64Char (a / 4) (by omega),
        b64Val_b64Char (a % 4 * 16 + b / 16) (by omega),
        b64Val_b64Char (b % 16 * 4) (by omega)]
      simp only [Option.bind_eq_bind, Option.some_bind, Option.some.injEq,
        List.cons.injEq, and_true]
      exact ⟨by omega, by omega⟩
  | case4 a b c rest ih =>
      have ha : a < 256 := h a (by simp)
      have hb : b < 256 := h b (by simp)
      have hc : c < 256 := h c (by simp)
      have hrest : ∀ x ∈ rest, x < 256 := fun x hx => h x (by simp [hx])
      rw [base64url_encode, base64url_decode,
        b64Val_b64Char (a / 4) (by omega),
        b64Val_b64Char (a % 4 * 16 + b / 16) (by omega),
        b64Val_b64Char (b % 16 * 4 + c / 64) (by omega),
        b64Val_b64Char (c % 64) (by omega), ih hrest]
      simp only [Option.bind_eq_bind, Option.some_bind, Option.some.injEq,
        List.cons.injEq, and_true]
      exact ⟨by omega, by omega, by omega⟩

theorem splitFirst_append {sep : Nat} {pre : List Nat} (post : List Nat)
    (hpre : sep ∉ pre) : splitFirst sep (pre ++ sep :: post) = some (pre, post) := by
  induction pre with
  | nil => simp [splitFirst]
  | cons x xs ih =>
      have hx : x ≠ sep := fun hh => hpre (hh ▸ List.mem_cons_self x xs)
      have hxs : sep ∉ xs := fun hh => hpre (List.mem_cons_of_mem x hh)
      simp [splitFirst, hx, ih hxs]

theorem splitFirst_eq_none {sep : Nat} {l : List Nat} (h : sep ∉ l) :
    splitFirst sep l = none := by
  induction l with
  | nil => rfl
  | cons x xs ih =>
      have hx : x ≠ sep := fun hh => h (hh ▸ List.mem_cons_self x xs)
      have hxs : sep ∉ xs := fun hh => h (List.mem_cons_of_mem x hh)
      simp [splitFirst, hx, ih hxs]

theorem rsplitLast_append {sep : Nat} {value sig : List Nat} (hsig : sep ∉ sig) :
    rsplitLast sep (value ++ sep :: sig) = some (value, sig) := by
  have hrev : (value ++ sep :: sig).reverse = sig.reverse ++ sep :: value.reverse := by
    simp [List.reverse_append]
  have hsigrev : sep ∉ sig.reverse := by simpa using hsig
  rw [rsplitLast, hrev, splitFirst_append value.reverse hsigrev]
  simp

theorem rsplitLast_eq_none {sep : Nat} {l : List Nat} (h : sep ∉ l) :
    rsplitLast sep l = none := by
  rw [rsplitLast, splitFirst_eq_none (by simpa using h)]

/-! ## Constant-time comparison -/

theorem nat_or_eq_zero_iff (x y : Nat) : x ||| y = 0 ↔ x = 0 ∧ y = 0 := by
  constructor
  · intro h
    refine ⟨Nat.eq_of_testBit_eq fun k => ?_, Nat.eq_of_testBit_eq fun k => ?_⟩ <;>
    · have hk := congrArg (fun m => Nat.testBit m k) h
      simp only [Nat.testBit_or, Nat.zero_testBit, Bool.or_eq_false_iff] at hk
      simp [hk.1, hk.2, Nat.zero_testBit]
  · rintro ⟨rfl, rfl⟩
    rfl

theorem foldl_or_eq_zero_iff (l : List Nat) (z : Nat) :
    l.foldl (fun acc b => acc ||| b) z = 0 ↔ z = 0 ∧ ∀ x ∈ l, x = 0 := by
  induction l generalizing z with
  | nil => simp
  | cons x xs ih =>
      simp only [List.foldl_cons, ih, nat_or_eq_zero_iff, List.mem_cons]
      constructor
      · rintro ⟨⟨hz, hx⟩, hxs⟩
        exact ⟨hz, fun y hy => hy.elim (fun hh => hh ▸ hx) (hxs y)⟩
      · rintro ⟨hz, hall⟩
        exact ⟨⟨hz, hall x (Or.inl rfl)⟩, fun y hy => hall y (Or.inr hy)⟩

theorem zipWith_xor_all_zero_iff {a b : List Nat} (hlen : a.length = b.length) :
    (∀ x ∈ List.zipWith (fun x y => x ^^^ y) a b, x = 0) ↔ a = b := by
  induction a generalizing b with
  | nil =>
      cases b with
      | nil => simp
      | cons y ys => simp at hlen
  | cons x xs ih =>
      cases b with
      | nil => simp at hlen
      | cons y ys =>
          simp only [List.length_cons, Nat.succ.injEq] at hlen
          simp only [List.zipWith_cons_cons, List.mem_cons, List.cons.injEq]
          constructor
          · intro h
            have hx : x = y := Nat.xor_eq_zero.mp (h _ (Or.inl rfl))
            exact ⟨hx, (ih hlen).mp fun z hz => h z (Or.inr hz)⟩
          · rintro ⟨rfl, rfl⟩
            intro z hz
            rcases hz with rfl | hz
            · exact Nat.xor_self x
            · exact ((ih hlen).mpr rfl) z hz

theorem constant_time_compare_eq_true_iff (a b : List Nat) :
    constant_time_compare a b = true ↔ a = b := by
  unfold constant_time_compare
  split
  · rename_i hne
    simp only [Bool.false_eq_true, false_iff]
    exact fun hh => hne (hh ▸ rfl)
  · rename_i hlen
    rw [Decidable.not_not] at hlen
    rw [decide_eq_true_iff, foldl_or_eq_zero_iff]
    simp [zipWith_xor_all_zero_iff hlen]

/-! ## Integer/byte-string codec for timestamps -/

theorem bytes_to_int_append_single (l : List Nat) (b : Nat) :
    bytes_to_int (l ++ [b]) = bytes_to_int l * 256 + b := by
  simp [bytes_to_int, List.foldl_append]

theorem int_to_bytes_eq_nil_iff (n : Nat) : int_to_bytes n = [] ↔ n = 0 := by
  rw [int_to_bytes]
  split
  · simp_all
  · simp_all

theorem bytes_to_int_int_to_bytes (n : Nat) :
    bytes_to_int (int_to_bytes n) = n := by
  induction n using Nat.strong_induction_on with
  | _ n ih =>
      rw [int_to_bytes]
      split
      · simp_all [bytes_to_int]
      · rename_i hn
        rw [bytes_to_int_append_single,
          ih (n / 256) (Nat.div_lt_self (Nat.pos_of_ne_zero hn) (by omega))]
        omega

theorem int_to_bytes_lt_256 (n : Nat) : ∀ b ∈ int_to_bytes n, b < 256 := by
  induction n using Nat.strong_induction_on with
  | _ n ih =>
      rw [int_to_bytes]
      split
      · simp
      · rename_i hn
        intro b hb
        rcases List.mem_append.mp hb with hmem | hmem
        · exact ih (n / 256) (Nat.div_lt_self (Nat.pos_of_ne_zero hn) (by omega)) b hmem
        · simp only [List.mem_cons, List.not_mem_nil, or_false] at hmem
          omega

theorem int_to_bytes_head_ne_zero (n : Nat) :
    (int_to_bytes n).head? ≠ some 0 := by
  induction n using Nat.strong_induction_on with
  | _ n ih =>
      rw [int_to_bytes]
      split
      · simp
      · rename_i hn
        by_cases hsmall : n / 256 = 0
        · have h0 : int_to_bytes (n / 256) = [] := by
            rw [int_to_bytes_eq_nil_iff]
            exact hsmall
          rw [h0]
          simp only [List.nil_append, List.head?_cons, ne_eq, Option.some.injEq]
          omega
        · have hne : int_to_bytes (n / 256) ≠ [] :=
            fun hh => hsmall ((int_to_bytes_eq_nil_iff _).mp hh)
          cases hcase : int_to_bytes (n / 256) with
          | nil => exact absurd hcase hne
          | cons y ys =>
              have := ih (n / 256)
                (Nat.div_lt_self (Nat.pos_of_ne_zero hn) (by omega))
              rw [hcase] at this
              simpa [hcase] using this

/-! ## Pipeline lemmas -/

theorem Signer.sign_eq (s : Signer) (key : List Nat)
    (hkey : s.derive_key = .ok key) (value : List Nat) :
    s.sign value =
      .ok (value ++ s.sep :: base64url_encode (s.algorithm.get_signature key value)) := by
  rw [Signer.sign, Signer.get_signature, hkey]
  rfl

theorem Signer.verify_signature_decode_none (s : Signer) (key : List Nat)
    (hkey : s.derive_key = .ok key) (value sig : List Nat)
    (hdec : base64url_decode sig = none) :
    s.verify_signature value sig = .ok false := by
  rw [Signer.verify_signature, hkey, hdec]
  rfl

theorem Signer.verify_signature_decode_some (s : Signer) (key : List Nat)
    (hkey : s.derive_key = .ok key) (value sig raw : List Nat)
    (hdec : base64url_decode sig = some raw) :
    s.verify_signature value sig = .ok (s.algorithm.verify_signature key value raw) := by
  rw [Signer.verify_signature, hkey, hdec]
  rfl

theorem Signer.verify_signature_isOk (s : Signer) (key : List Nat)
    (hkey : s.derive_key = .ok key) (value sig : List Nat) :
    ∃ b, s.verify_signature value sig = .ok b := by
  cases hdec : base64url_decode sig with
  | none => exact ⟨false, s.verify_signature_decode_none key hkey value sig hdec⟩
  | some raw =>
      exact ⟨_, s.verify_signature_decode_some key hkey value sig raw hdec⟩

theorem sep_not_mem_encode {s : Signer} (hsep : s.sep ∉ base64_alphabet)
    (l : List Nat) : s.sep ∉ base64url_encode l :=
  fun hmem => hsep (base64url_encode_mem_alphabet hmem)

theorem Signer.unsign_sign (s : Signer) (key value : List Nat)
    (hsep : s.sep ∉ base64_alphabet)
    (hkey : s.derive_key = .ok key)
    (hsig : ∀ b ∈ s.algorithm.get_signature key value, b < 256) :
    s.unsign (value ++ s.sep :: base64url_encode (s.algorithm.get_signature key value)) =
      .ok value := by
  have hver : s.verify_signature value
      (base64url_encode (s.algorithm.get_signature key value)) = .ok true := by
    rw [s.verify_signature_decode_some key hkey value _ _
      (base64url_decode_encode hsig), SigningAlgorithm.verify_signature,
      (constant_time_compare_eq_true_iff _ _).mpr rfl]
  simp only [Signer.unsign, rsplitLast_append (sep_not_mem_encode hsep _), hver]

theorem Signer.unsign_cases (s : Signer) (key : List Nat)
    (hkey : s.derive_key = .ok key) (token : List Nat) :
    (∃ v, s.unsign token = .ok v) ∨
      (∃ msg p, s.unsign token = .error (.badSignature msg p)) := by
  cases hsplit : rsplitLast s.sep token with
  | none =>
      exact Or.inr ⟨noSepMessage, none, by simp only [Signer.unsign, hsplit]⟩
  | some p =>
      obtain ⟨v, sg⟩ := p
      obtain ⟨b, hb⟩ := s.verify_signature_isOk key hkey v sg
      cases b with
      | true =>
          exact Or.inl ⟨v, by simp only [Signer.unsign, hsplit, hb]⟩
      | false =>
          exact Or.inr ⟨sigMismatchMessage, some v,
            by simp only [Signer.unsign, hsplit, hb]⟩

theorem except_bind_ok {ε α β : Type _} (a : α) (f : α → Except ε β) :
    (Except.ok a >>= f) = f a := rfl

theorem except_bind_error {ε α β : Type _} (e : ε) (f : α → Except ε β) :
    ((Except.error e : Except ε α) >>= f) = Except.error e := rfl

theorem Signer.unsign_error_family (s : Signer) (key : List Nat)
    (hkey : s.derive_key = .ok key) (token : List Nat) (e : SignerError)
    (he : s.unsign token = .error e) : e.isBadSignatureFamily = true := by
  rcases s.unsign_cases key hkey token with ⟨v, hv⟩ | ⟨msg, p, hp⟩
  · rw [hv] at he
    exact absurd he (by simp)
  · rw [hp] at he
    obtain rfl : SignerError.badSignature msg p = e := by
      simpa using he
    rfl

theorem Signer.validate_eq (s : Signer) (key : List Nat)
    (hkey : s.derive_key = .ok key) (token : List Nat) :
    s.validate token = .ok (exOk (s.unsign token)) := by
  cases hres : s.unsign token with
  | ok v => simp only [Signer.validate, hres, exOk]
  | error e =>
      have hfam := s.unsign_error_family key hkey token e hres
      cases e <;> simp_all [Signer.validate, exOk, SignerError.isBadSignatureFamily]

theorem TimestampSigner.timed_sign_eq (s : Signer) (key : List Nat)
    (hkey : s.derive_key = .ok key) (now : Nat) (value : List Nat) :
    TimestampSigner.sign s now value =
      .ok ((value ++ s.sep :: base64url_encode (int_to_bytes now)) ++ s.sep ::
        base64url_encode (s.algorithm.get_signature key
          (value ++ s.sep :: base64url_encode (int_to_bytes now)))) := by
  rw [TimestampSigner.sign, Signer.sign_eq s key hkey]

theorem TimestampSigner.unsign_sign_token (s : Signer) (key value : List Nat)
    (now : Nat)
    (hsep : s.sep ∉ base64_alphabet) (hkey : s.derive_key = .ok key)
    (hsig : ∀ b ∈ s.algorithm.get_signature key
      (value ++ s.sep :: base64url_encode (int_to_bytes now)), b < 256)
    (now2 : Nat) (max_age : Option Nat) :
    TimestampSigner.unsign s now2
      ((value ++ s.sep :: base64url_encode (int_to_bytes now)) ++ s.sep ::
        base64url_encode (s.algorithm.get_signature key
          (value ++ s.sep :: base64url_encode (int_to_bytes now)))) max_age =
      match max_age with
      | none => .ok (value, now)
      | some m =>
          if ((now2 : Int) - (now : Int)) > (m : Int) then
            .error (.signatureExpired expiredMessage (some value) now
              ((now2 : Int) - (now : Int)) m)
          else .ok (value, now) := by
  have hun := Signer.unsign_sign s key
    (value ++ s.sep :: base64url_encode (int_to_bytes now)) hsep hkey hsig
  simp only [TimestampSigner.unsign, hun, except_bind_ok,
    rsplitLast_append (sep_not_mem_encode hsep _),
    base64url_decode_encode (int_to_bytes_lt_256 now), bytes_to_int_int_to_bytes]
  cases max_age with
  | none => rfl
  | some m => rfl

theorem TimestampSigner.timed_unsign_error_family (s : Signer) (key : List Nat)
    (hkey : s.derive_key = .ok key) (now : Nat) (token : List Nat)
    (max_age : Option Nat) (e : SignerError)
    (he : TimestampSigner.unsign s now token max_age = .error e) :
    e.isBadSignatureFamily = true := by
  rcases s.unsign_cases key hkey token with ⟨v, hv⟩ | ⟨msg, p, hp⟩
  · rw [TimestampSigner.unsign, hv] at he
    simp only [except_bind_ok] at he
    cases hsplit : rsplitLast s.sep v with
    | none =>
        simp only [hsplit] at he
        obtain rfl : SignerError.badTimeSignature timestampMissingMessage (some v) = e := by
          simpa using he
        rfl
    | some p =>
        obtain ⟨w, tsb⟩ := p
        simp only [hsplit] at he
        cases hdec : base64url_decode tsb with
        | none =>
            simp only [hdec] at he
            obtain rfl : SignerError.badTimeSignature malformedTimestampMessage (some w) = e := by
              simpa using he
            rfl
        | some raw =>
            simp only [hdec] at he
            cases max_age with
            | none => simp [pure, Except.pure] at he
            | some m =>
                simp only [gt_iff_lt] at he
                by_cases hage : (m : Int) < ((now : Int) - (bytes_to_int raw : Int))
                · rw [if_pos hage] at he
                  obtain rfl : SignerError.signatureExpired expiredMessage (some w)
                      (bytes_to_int raw) ((now : Int) - (bytes_to_int raw : Int)) m = e := by
                    simpa using he
                  rfl
                · rw [if_neg hage] at he
                  simp [pure, Except.pure] at he
  · rw [TimestampSigner.unsign, hp] at he
    simp only [except_bind_error] at he
    obtain rfl : SignerError.badSignature msg p = e := by
      simpa using he
    rfl

theorem TimestampSigner.timed_validate_eq (s : Signer) (key : List Nat)
    (hkey : s.derive_key = .ok key) (now : Nat) (token : List Nat)
    (max_age : Option Nat) :
    TimestampSigner.validate s now token max_age =
      .ok (exOk (TimestampSigner.unsign s now token max_age)) := by
  cases hres : TimestampSigner.unsign s now token max_age with
  | ok v => simp only [TimestampSigner.validate, hres, exOk]
  | error e =>
      have hfam := TimestampSigner.timed_unsign_error_family s key hkey now token max_age e hres
      cases e <;>
        simp_all [TimestampSigner.validate, exOk, SignerError.isBadSignatureFamily]

theorem wSignerNone_alg_bytes :
    ∀ k v, ∀ b ∈ wSignerNone.algorithm.get_signature k v, b < 256 := by
  intro k v b hb
  simp [wSignerNone, wSigner, NoneAlgorithm] at hb

/-! ## The claims -/

/-- C1: signing a value and unsigning the resulting token with the same
Signer configuration returns the original value unchanged, and the same
round-trip law holds for the Timestamped Signer (the timestamp also being
recovered exactly). -/
theorem sign_unsign_roundtrip (s : Signer) (key value : List Nat) (now now2 : Nat)
    (hsep : s.sep ∉ base64_alphabet)
    (hkey : s.derive_key = .ok key)
    (halg : ∀ k v, ∀ b ∈ s.algorithm.get_signature k v, b < 256) :
    (∀ t, s.sign value = .ok t → s.unsign t = .ok value) ∧
    (∀ t, TimestampSigner.sign s now value = .ok t →
      TimestampSigner.unsign s now2 t none = .ok (value, now)) := by
  constructor
  · intro t ht
    rw [Signer.sign_eq s key hkey] at ht
    simp only [Except.ok.injEq] at ht
    subst ht
    exact Signer.unsign_sign s key value hsep hkey (halg key value)
  · intro t ht
    rw [TimestampSigner.timed_sign_eq s key hkey] at ht
    simp only [Except.ok.injEq] at ht
    subst ht
    exact TimestampSigner.unsign_sign_token s key value now hsep hkey
      (halg key _) now2 none

theorem sign_unsign_roundtrip_witness :
    wSignerNone.unsign [104, 105, 46] = .ok [104, 105] ∧
    TimestampSigner.unsign wSignerNone 9 [104, 105, 46, 66, 119, 46] none =
      .ok ([104, 105], 7) := by
  have h := sign_unsign_roundtrip wSignerNone [107, 101, 121] [104, 105] 7 9
    (by decide) rfl wSignerNone_alg_bytes
  refine ⟨h.1 [104, 105, 46] rfl, h.2 [104, 105, 46, 66, 119, 46] ?_⟩
  rw [TimestampSigner.sign, show int_to_bytes 7 = [7] from by simp [int_to_bytes]]
  rfl

/-- C2: `validate` never raises — for every input token it returns `.ok` of a
boolean, `true` exactly when `unsign` succeeds and `false` on any failure;
likewise for the Timestamped Signer, where expiry failures also collapse to
`false`. -/
theorem validate_never_raises (s : Signer) (key : List Nat)
    (hkey : s.derive_key = .ok key) :
    (∀ token, s.validate token = .ok (exOk (s.unsign token))) ∧
    (∀ now token max_age, TimestampSigner.validate s now token max_age =
      .ok (exOk (TimestampSigner.unsign s now token max_age))) :=
  ⟨fun token => s.validate_eq key hkey token,
   fun now token max_age => TimestampSigner.timed_validate_eq s key hkey now token max_age⟩

theorem validate_never_raises_witness :
    wSigner.validate [120, 121, 122] = .ok false ∧
    TimestampSigner.validate wSigner 5 [33, 33] (some 10) = .ok false := by
  have h := validate_never_raises wSigner [107, 101, 121] rfl
  constructor
  · rw [h.1 [120, 121, 122]]
    rfl
  · rw [h.2 5 [33, 33] (some 10)]
    rfl

/-- C3: with `max_age` given, expiry is a strict greater-than check — a token
whose age equals `max_age` exactly is accepted, while one second more fails
with the expiry error (carrying the unverified value, the signed timestamp,
the age and the maximum age). -/
theorem max_age_boundary (s : Signer) (key value : List Nat) (t0 m : Nat)
    (hsep : s.sep ∉ base64_alphabet)
    (hkey : s.derive_key = .ok key)
    (halg : ∀ k v, ∀ b ∈ s.algorithm.get_signature k v, b < 256) :
    ∀ t, TimestampSigner.sign s t0 value = .ok t →
      TimestampSigner.unsign s (t0 + m) t (some m) = .ok (value, t0) ∧
      TimestampSigner.unsign s (t0 + m + 1) t (some m) =
        .error (.signatureExpired expiredMessage (some value) t0 ((m : Int) + 1) m) := by
  intro t ht
  rw [TimestampSigner.timed_sign_eq s key hkey] at ht
  simp only [Except.ok.injEq] at ht
  subst ht
  constructor
  · rw [TimestampSigner.unsign_sign_token s key value t0 hsep hkey
      (halg key _) (t0 + m) (some m)]
    have hage : ¬((m : Int) < ((t0 + m : Nat) : Int) - (t0 : Int)) := by
      push_cast
      omega
    simp only [gt_iff_lt, if_neg hage]
  · rw [TimestampSigner.unsign_sign_token s key value t0 hsep hkey
      (halg key _) (t0 + m + 1) (some m)]
    have hage : (m : Int) < ((t0 + m + 1 : Nat) : Int) - (t0 : Int) := by
      push_cast
      omega
    have harg : ((t0 + m + 1 : Nat) : Int) - (t0 : Int) = (m : Int) + 1 := by
      push_cast
      omega
    simp only [gt_iff_lt, harg]
    rw [if_pos (show (m : Int) < (m : Int) + 1 from by omega)]

theorem max_age_boundary_witness :
    TimestampSigner.unsign wSignerNone 7 [104, 105, 46, 66, 119, 46] (some 0) =
      .ok ([104, 105], 7) ∧
    TimestampSigner.unsign wSignerNone 8 [104, 105, 46, 66, 119, 46] (some 0) =
      .error (.signatureExpired expiredMessage (some [104, 105]) 7 1 0) := by
  have h := max_age_boundary wSignerNone [107, 101, 121] [104, 105] 7 0
    (by decide) rfl wSignerNone_alg_bytes [104, 105, 46, 66, 119, 46]
    (by
      rw [TimestampSigner.sign, show int_to_bytes 7 = [7] from by simp [int_to_bytes]]
      rfl)
  exact ⟨h.1, h.2⟩

/-- C4 counterexample: constructing a Signer with the unknown key-derivation
method name `"invalid"` succeeds, so the configuration error is not fatal at
construction time as the claim states. -/
theorem unknown_derivation_constructs :
    exOk (Signer.make [107, 101, 121] [115, 97, 108, 116] 46 "invalid"
      (fun l => l) (fun k m => k ++ m) NoneAlgorithm) = true := rfl

/-- C4 (amended): an unknown key-derivation method name is reported as a
`TypeError` configuration error (not a signature error) by `derive_key`, and
hence by any `sign` attempt — lazily at first use rather than at construction
time. -/
theorem unknown_derivation_fails_at_derive (s : Signer)
    (h : s.key_derivation ≠ "concat" ∧ s.key_derivation ≠ "django-concat" ∧
      s.key_derivation ≠ "hmac" ∧ s.key_derivation ≠ "none") :
    s.derive_key = .error (.typeError unknownDerivationMessage) ∧
    ∀ value, s.sign value = .error (.typeError unknownDerivationMessage) := by
  have hd : s.derive_key = .error (.typeError unknownDerivationMessage) := by
    rw [Signer.derive_key, if_neg h.1, if_neg h.2.1, if_neg h.2.2.1,
      if_neg h.2.2.2]
  refine ⟨hd, fun value => ?_⟩
  rw [Signer.sign, Signer.get_signature, hd]
  rfl

theorem unknown_derivation_fails_witness :
    wSignerUnknown.derive_key = .error (.typeError unknownDerivationMessage) ∧
    wSignerUnknown.sign [104] = .error (.typeError unknownDerivationMessage) := by
  have h := unknown_derivation_fails_at_derive wSignerUnknown
    (by refine ⟨?_, ?_, ?_, ?_⟩ <;> decide)
  exact ⟨h.1, h.2 [104]⟩

/-- C5: constructing a Signer whose separator belongs to the base64url
alphabet (letters, digits, `-`, `_`, `=`) fails immediately with a
configuration error, while any separator outside that alphabet is accepted. -/
theorem separator_alphabet_check (secret_key salt : List Nat) (sep : Nat)
    (kd : String) (dm : List Nat → List Nat)
    (mc : List Nat → List Nat → List Nat) (algo : SigningAlgorithm) :
    (sep ∈ base64_alphabet →
      Signer.make secret_key salt sep kd dm mc algo =
        .error (.valueError sepErrorMessage)) ∧
    (sep ∉ base64_alphabet →
      Signer.make secret_key salt sep kd dm mc algo =
        .ok ⟨secret_key, salt, sep, kd, dm, mc, algo⟩) := by
  constructor <;> intro h <;> simp [Signer.make, h]

theorem separator_alphabet_check_witness :
    Signer.make [107] [115] 61 "none" (fun l => l) (fun k m => k ++ m)
      NoneAlgorithm = .error (.valueError sepErrorMessage) ∧
    Signer.make [107] [115] 46 "none" (fun l => l) (fun k m => k ++ m)
      NoneAlgorithm =
      .ok ⟨[107], [115], 46, "none", fun l => l, fun k m => k ++ m, NoneAlgorithm⟩ :=
  ⟨(separator_alphabet_check [107] [115] 61 "none" (fun l => l)
      (fun k m => k ++ m) NoneAlgorithm).1 (by decide),
   (separator_alphabet_check [107] [115] 46 "none" (fun l => l)
      (fun k m => k ++ m) NoneAlgorithm).2 (by decide)⟩

/-- C6: when the Timestamped Signer unsigns a token whose signature verifies
but which has no timestamp segment — e.g. one produced by the plain Signer of
the same configuration — it fails with the "timestamp missing"
`BadTimeSignature` error, distinct from a signature-mismatch error. -/
theorem plain_token_timestamp_missing (s : Signer) (key value : List Nat)
    (hsep : s.sep ∉ base64_alphabet)
    (hkey : s.derive_key = .ok key)
    (halg : ∀ k v, ∀ b ∈ s.algorithm.get_signature k v, b < 256)
    (hval : s.sep ∉ value) :
    ∀ t, s.sign value = .ok t → ∀ now max_age,
      TimestampSigner.unsign s now t max_age =
        .error (.badTimeSignature timestampMissingMessage (some value)) := by
  intro t ht now max_age
  rw [Signer.sign_eq s key hkey] at ht
  simp only [Except.ok.injEq] at ht
  subst ht
  have hun := Signer.unsign_sign s key value hsep hkey (halg key value)
  rw [TimestampSigner.unsign, hun]
  simp only [except_bind_ok, rsplitLast_eq_none hval]

theorem plain_token_timestamp_missing_witness :
    TimestampSigner.unsign wSignerNone 5 [104, 105, 46] none =
      .error (.badTimeSignature timestampMissingMessage (some [104, 105])) :=
  plain_token_timestamp_missing wSignerNone [107, 101, 121] [104, 105]
    (by decide) rfl wSignerNone_alg_bytes (by decide) [104, 105, 46] rfl 5 none

/-- C7: for a token that contains the separator but whose signature does not
verify, `unsign` fails with a signature-mismatch error whose payload is the
(unverified) value extracted before the last separator. -/
theorem unsign_mismatch_payload (s : Signer) (token value sig : List Nat)
    (hsplit : rsplitLast s.sep token = some (value, sig))
    (hbad : s.verify_signature value sig = .ok false) :
    s.unsign token = .error (.badSignature sigMismatchMessage (some value)) := by
  simp only [Signer.unsign, hsplit, hbad]

theorem unsign_mismatch_payload_witness :
    wSigner.unsign [118, 97, 108, 117, 101, 46, 105, 110, 118, 97, 108, 105,
      100, 115, 105, 103] =
      .error (.badSignature sigMismatchMessage (some [118, 97, 108, 117, 101])) :=
  unsign_mismatch_payload wSigner
    [118, 97, 108, 117, 101, 46, 105, 110, 118, 97, 108, 105, 100, 115, 105, 103]
    [118, 97, 108, 117, 101] [105, 110, 118, 97, 108, 105, 100, 115, 105, 103]
    rfl rfl

/-- C8: for every `n` below `2 ^ 64`, `int_to_bytes n` is a big-endian
minimal-length byte encoding — no leading zero byte, all bytes below 256 —
and `bytes_to_int` recovers `n` exactly. -/
theorem int_bytes_roundtrip (n : Nat) (h : n < 2 ^ 64) :
    bytes_to_int (int_to_bytes n) = n ∧
    (int_to_bytes n).head? ≠ some 0 ∧
    ∀ b ∈ int_to_bytes n, b < 256 :=
  ⟨bytes_to_int_int_to_bytes n, int_to_bytes_head_ne_zero n, int_to_bytes_lt_256 n⟩

theorem int_bytes_roundtrip_witness :
    1234567890 < 2 ^ 64 ∧ bytes_to_int (int_to_bytes 1234567890) = 1234567890 :=
  ⟨by norm_num, (int_bytes_roundtrip 1234567890 (by norm_num)).1⟩

/-- C9: the constant-time comparison returns `true` for equal byte strings
(including empty ones), `false` for equal-length byte strings differing
somewhere, and `false` for byte strings of different lengths — in every case
returning a boolean rather than failing. -/
theorem constant_time_compare_cases (a b : List Nat) :
    (a = b → constant_time_compare a b = true) ∧
    (a.length = b.length → a ≠ b → constant_time_compare a b = false) ∧
    (a.length ≠ b.length → constant_time_compare a b = false) := by
  refine ⟨fun h => (constant_time_compare_eq_true_iff a b).mpr h,
    fun hlen hne => ?_, fun hlen => ?_⟩
  · cases hc : constant_time_compare a b with
    | false => rfl
    | true => exact absurd ((constant_time_compare_eq_true_iff a b).mp hc) hne
  · cases hc : constant_time_compare a b with
    | false => rfl
    | true =>
        exact absurd
          (congrArg List.length ((constant_time_compare_eq_true_iff a b).mp hc)) hlen

theorem constant_time_compare_cases_witness :
    constant_time_compare [] [] = true ∧
    constant_time_compare [104, 101] [104, 97] = false ∧
    constant_time_compare [104] [] = false :=
  ⟨(constant_time_compare_cases [] []).1 rfl,
   (constant_time_compare_cases [104, 101] [104, 97]).2.1 rfl (by decide),
   (constant_time_compare_cases [104] []).2.2 (by decide)⟩

/-- C10: `Signer.verify_signature` is total over supplied signatures — it
always returns a boolean, and in particular returns `false` (rather than
failing) when the supplied signature is not decodable base64. -/
theorem verify_signature_never_raises (s : Signer) (key : List Nat)
    (hkey : s.derive_key = .ok key) :
    (∀ value sig, ∃ b, s.verify_signature value sig = .ok b) ∧
    (∀ value sig, base64url_decode sig = none →
      s.verify_signature value sig = .ok false) :=
  ⟨fun value sig => s.verify_signature_isOk key hkey value sig,
   fun value sig hdec => s.verify_signature_decode_none key hkey value sig hdec⟩

theorem verify_signature_never_raises_witness :
    wSigner.verify_signature [118, 97, 108] [33, 33, 33] = .ok false :=
  (verify_signature_never_raises wSigner [107, 101, 121] rfl).2
    [118, 97, 108] [33, 33, 33] rfl

end ItsDangerous
